import Mathlib

/-!
Verification of the message-board canister (src/src/index.ts).

The embedding models:
 * the `Message` record exactly as declared by `class Message` in the source
   (timestamps as `Nat` milliseconds, `updatedAt : Option Nat` for `Date | null`);
 * request bodies as partial records of optional fields (a JSON body may carry
   any subset of the Message fields, including `id`, `createdAt`, `updatedAt`);
 * the durable `StableBTreeMap` record store, which is a library dependency not
   present in the repository, modelled from the spec as a key-sorted
   association list;
 * every HTTP handler of the source as a pure function
   `Store → inputs → Store × Resp`, with the uuid generator and `ic.time()`
   passed in as explicit `fresh`/`now` parameters.
-/

/-- A stored message, mirroring `class Message` in the source: `id`, `title`,
`body`, `attachmentURL` are strings, `createdAt` is a timestamp, and
`updatedAt` is a timestamp or null/absent. -/
structure Message where
  id : String
  title : String
  body : String
  attachmentURL : String
  createdAt : Nat
  updatedAt : Option Nat
deriving Repr, DecidableEq

/-- A JSON request body for `PUT /messages/:id` (and the optional part of a
`POST /messages` body): any subset of the Message fields may be present. -/
structure MsgPatch where
  id : Option String := none
  title : Option String := none
  body : Option String := none
  attachmentURL : Option String := none
  createdAt : Option Nat := none
  updatedAt : Option Nat := none
deriving Repr, DecidableEq

/-- A JSON request body for `POST /messages` supplying the three text fields
(the spec's "valid fields"), and possibly also the server-owned fields
`id`, `createdAt`, `updatedAt`, which a caller may include in the raw JSON. -/
structure CreateBody where
  title : String
  body : String
  attachmentURL : String
  id : Option String := none
  createdAt : Option Nat := none
  updatedAt : Option Nat := none
deriving Repr, DecidableEq

/-- The object built by the POST handler:
`{ id: uuidv4(), createdAt: getCurrentDate(), ...req.body }`.
The spread of `req.body` comes last, so body fields override the two
defaults when present. -/
def createMessage (fresh : String) (now : Nat) (b : CreateBody) : Message :=
  { id := b.id.getD fresh
  , title := b.title
  , body := b.body
  , attachmentURL := b.attachmentURL
  , createdAt := b.createdAt.getD now
  , updatedAt := b.updatedAt }

/-- The object built by the PUT handler:
`{ ...message, ...req.body, updatedAt: getCurrentDate() }`.
Each body field overrides the stored field when present, and `updatedAt` is
written last, so it is always `now` whatever the body carried. -/
def updateMessage (now : Nat) (m : Message) (p : MsgPatch) : Message :=
  { id := p.id.getD m.id
  , title := p.title.getD m.title
  , body := p.body.getD m.body
  , attachmentURL := p.attachmentURL.getD m.attachmentURL
  , createdAt := p.createdAt.getD m.createdAt
  , updatedAt := some now }

/-- Lexicographic strict order on character lists, comparing code points as
naturals; this is the model's ascending key order. -/
def lexLt : List Char → List Char → Bool
  | [], [] => false
  | [], _ :: _ => true
  | _ :: _, [] => false
  | a :: as, b :: bs =>
    if a.toNat < b.toNat then true
    else if b.toNat < a.toNat then false
    else lexLt as bs

/-- Ascending key order on identifiers: lexicographic on the characters. -/
def keyLt (a b : String) : Prop :=
  lexLt a.data b.data = true

instance (a b : String) : Decidable (keyLt a b) := by
  unfold keyLt; infer_instance

/-- Modelled from the spec: the azle `StableBTreeMap` (a library dependency,
not part of this repository) is "an ordered, durable map from identifier to
Message record", embedded as an association list kept sorted by key in
ascending order. -/
structure Store where
  entries : List (String × Message)
deriving Repr, DecidableEq

/-- Modelled from the spec: ordered insertion into the key-sorted entry list,
replacing the entry of an equal key so "the store never holds two records
under the same key". -/
def insertEntries : List (String × Message) → String → Message → List (String × Message)
  | [], k, v => [(k, v)]
  | (k₀, v₀) :: t, k, v =>
    if keyLt k k₀ then (k, v) :: (k₀, v₀) :: t
    else if k = k₀ then (k, v) :: t
    else (k₀, v₀) :: insertEntries t k v

/-- Modelled from the spec: deletion of the entry of key `k`, if present. -/
def removeEntries : List (String × Message) → String → List (String × Message)
  | [], _ => []
  | (k₀, v₀) :: t, k => if k = k₀ then t else (k₀, v₀) :: removeEntries t k

/-- Lookup of a key in the entry list: the first entry with that key. -/
def lookupEntries : List (String × Message) → String → Option Message
  | [], _ => none
  | (k₀, v₀) :: t, k => if k = k₀ then some v₀ else lookupEntries t k

/-- Modelled from the spec: `get(id)` returns the stored value or an explicit
absent signal, never an error. -/
def Store.get (s : Store) (k : String) : Option Message :=
  lookupEntries s.entries k

/-- Modelled from the spec: `insert(id, message)` stores `message` under `id`,
overwriting any existing value, and returns the prior value if one existed. -/
def Store.insert (s : Store) (k : String) (v : Message) : Option Message × Store :=
  (s.get k, ⟨insertEntries s.entries k v⟩)

/-- Modelled from the spec: `remove(id)` deletes the entry if present and
returns the removed value, or the absent signal. -/
def Store.remove (s : Store) (k : String) : Option Message × Store :=
  (s.get k, ⟨removeEntries s.entries k⟩)

/-- Modelled from the spec: `values()` produces all current values in
ascending key order. -/
def Store.values (s : Store) : List Message :=
  s.entries.map Prod.snd

/-- Modelled from the spec: the keys currently present in the store. -/
def Store.keys (s : Store) : List String :=
  s.entries.map Prod.fst

/-- Modelled from the spec: the initially empty store. -/
def Store.empty : Store := ⟨[]⟩

/-- Well-formedness of the store: entries strictly ascending by key. -/
def Store.WF (s : Store) : Prop :=
  s.entries.Pairwise (fun a b => keyLt a.1 b.1)

/-- Modelled from the spec: azle's lookups hand the handlers "a sentinel
object with a discriminant field" (spec section 9), serialized as
`{Some: message}` or `{None: null}`; the source's line 73 reads
`messageOpt.Some` accordingly. As a JavaScript object the sentinel is always
truthy, whichever variant it is. -/
inductive AzleOpt where
  | Some (m : Message)
  | None
deriving Repr, DecidableEq

/-- Modelled from the spec: the sentinel the runtime store hands back for
`get(id)`, wrapping the looked-up value. -/
def Store.getOpt (s : Store) (k : String) : AzleOpt :=
  match s.get k with
  | some m => AzleOpt.Some m
  | none => AzleOpt.None

/-- Modelled from the spec: the sentinel-and-store result the runtime store
hands back for `remove(id)`. -/
def Store.removeOpt (s : Store) (k : String) : AzleOpt × Store :=
  match (s.remove k).1 with
  | some m => (AzleOpt.Some m, (s.remove k).2)
  | none => (AzleOpt.None, (s.remove k).2)

/-- An HTTP response of the source's handlers: a single message, a list of
messages, a `{Some}/{None}` sentinel serialized as JSON, an error status
code, or the framework's error response when the handler throws (an uncaught
TypeError surfaces as a 500 with no store write). -/
inductive Resp where
  | msg (m : Message)
  | msgs (ms : List Message)
  | jsonOpt (o : AzleOpt)
  | err (status : Nat)
  | fault
deriving Repr, DecidableEq

/-- Handler of `POST /messages`: builds the message from the fresh uuid, the
current time and the body, inserts it under `message.id`, and responds with
the message. -/
def postMessages (st : Store) (fresh : String) (now : Nat) (b : CreateBody) :
    Store × Resp :=
  let message := createMessage fresh now b
  ((st.insert message.id message).2, Resp.msg message)

/-- Handler of `GET /messages`: responds with `messagesStorage.values()`. -/
def getMessages (st : Store) : Store × Resp :=
  (st, Resp.msgs st.values)

/-- Handler of `GET /messages/:id`. The source's `if (!messageOpt)` tests
the always-truthy sentinel, so its 404 branch is dead: the handler responds
200 with `res.json(messageOpt)` — the sentinel itself, `{Some: m}` when the
id is present and `{None: null}` when it is absent. The store is never
touched. -/
def getMessageById (st : Store) (mid : String) : Store × Resp :=
  (st, Resp.jsonOpt (st.getOpt mid))

/-- Handler of `PUT /messages/:id`. The source's `if (!messageOpt)` tests
the always-truthy sentinel, so its 400 branch is dead and the else branch
always runs: `messageOpt.Some` extracts the record when the id is present,
the handler builds the merged record, inserts it under `message.id` — the id
field of the looked-up record — and responds with the merged record. When
the id is absent, `messageOpt.Some` is undefined and `message!.id` throws a
TypeError before any insert, so the framework answers with an error response
and the store is unchanged. -/
def putMessageById (st : Store) (now : Nat) (mid : String) (p : MsgPatch) :
    Store × Resp :=
  match st.getOpt mid with
  | AzleOpt.Some message =>
    let updated := updateMessage now message p
    ((st.insert message.id updated).2, Resp.msg updated)
  | AzleOpt.None => (st, Resp.fault)

/-- Handler of `DELETE /messages/:id`: removes the entry. The source's
`if (!deletedMessage)` tests the always-truthy sentinel, so its 400 branch
is dead: the handler responds 200 with `res.json(deletedMessage)` — the
sentinel, `{Some: m}` for a removed record and `{None: null}` when nothing
was stored under the id (in which case the store is unchanged). -/
def deleteMessageById (st : Store) (mid : String) : Store × Resp :=
  let r := st.removeOpt mid
  (r.2, Resp.jsonOpt r.1)

/-- JavaScript `toLowerCase()` on the model alphabet: lowercase every
character. -/
def lowerS (s : String) : String :=
  ⟨s.data.map Char.toLower⟩

/-- Boolean test: does `p` occur at the start of `l`. -/
def listStarts : List Char → List Char → Bool
  | _, [] => true
  | [], _ :: _ => false
  | a :: as, b :: bs => a == b && listStarts as bs

/-- Boolean test mirroring JavaScript `hay.includes(pat)`: does `pat` occur
contiguously anywhere in `hay`. -/
def listHas : List Char → List Char → Bool
  | [], pat => listStarts [] pat
  | c :: t, pat => listStarts (c :: t) pat || listHas t pat

/-- String form of `listHas`, mirroring `String.prototype.includes`. -/
def strHas (hay pat : String) : Bool :=
  listHas hay.data pat.data

/-- The search filter of the source:
`message.title.toLowerCase().includes(query) || message.body.toLowerCase().includes(query)`,
where `query` is already lowercased. -/
def matchesQuery (q : String) (m : Message) : Bool :=
  strHas (lowerS m.title) q || strHas (lowerS m.body) q

/-- Handler of `GET /messages/search`: 400 when the query parameter is absent
or lowercases to the empty string (falsy), otherwise the filtered values. -/
def searchMessages (st : Store) (query : Option String) : Store × Resp :=
  match query with
  | none => (st, Resp.err 400)
  | some s =>
    let q := lowerS s
    if q = "" then (st, Resp.err 400)
    else (st, Resp.msgs (st.values.filter (matchesQuery q)))

/-- The set-level meaning of substring containment, used to state search
correctness against `strHas`. -/
def ContainsSub (pat hay : List Char) : Prop :=
  ∃ pre post, hay = pre ++ pat ++ post

/-! ### Order lemmas for the key order -/

theorem lexLt_irrefl : ∀ l : List Char, lexLt l l = false
  | [] => rfl
  | c :: t => by simp [lexLt, lexLt_irrefl t]

theorem lexLt_trans (a : List Char) :
    ∀ b c, lexLt a b = true → lexLt b c = true → lexLt a c = true := by
  induction a with
  | nil =>
    intro b c h1 h2
    cases b with
    | nil => simp [lexLt] at h1
    | cons y ys =>
      cases c with
      | nil => simp [lexLt] at h2
      | cons z zs => simp [lexLt]
  | cons x xs ih =>
    intro b c h1 h2
    cases b with
    | nil => simp [lexLt] at h1
    | cons y ys =>
      cases c with
      | nil => simp [lexLt] at h2
      | cons z zs =>
        simp only [lexLt] at h1 h2 ⊢
        by_cases hxy : x.toNat < y.toNat
        · by_cases hyz : y.toNat < z.toNat
          · have hxz : x.toNat < z.toNat := Nat.lt_trans hxy hyz
            simp [hxz]
          · by_cases hzy : z.toNat < y.toNat
            · simp [hyz, hzy] at h2
            · have hxz : x.toNat < z.toNat := by omega
              simp [hxz]
        · by_cases hyx : y.toNat < x.toNat
          · simp [hxy, hyx] at h1
          · simp [hxy, hyx] at h1
            by_cases hyz : y.toNat < z.toNat
            · have hxz : x.toNat < z.toNat := by omega
              simp [hxz]
            · by_cases hzy : z.toNat < y.toNat
              · simp [hyz, hzy] at h2
              · simp [hyz, hzy] at h2
                have hxz : ¬ x.toNat < z.toNat := by omega
                have hzx : ¬ z.toNat < x.toNat := by omega
                simp [hxz, hzx]
                exact ih ys zs h1 h2

theorem lexLt_connex (a : List Char) :
    ∀ b, lexLt a b = false → lexLt b a = false → a = b := by
  induction a with
  | nil =>
    intro b h1 _
    cases b with
    | nil => rfl
    | cons y ys => simp [lexLt] at h1
  | cons x xs ih =>
    intro b h1 h2
    cases b with
    | nil => simp [lexLt] at h2
    | cons y ys =>
      simp only [lexLt] at h1 h2
      by_cases hxy : x.toNat < y.toNat
      · simp [hxy] at h1
      · by_cases hyx : y.toNat < x.toNat
        · simp [hyx] at h2
        · simp [hxy, hyx] at h1 h2
          have hn : x.toNat = y.toNat := by omega
          have hc : x = y :=
            Char.eq_of_val_eq (UInt32.eq_of_toBitVec_eq (BitVec.eq_of_toNat_eq hn))
          rw [hc, ih ys h1 h2]

theorem keyLt_irrefl (a : String) : ¬ keyLt a a := by
  simp [keyLt, lexLt_irrefl]

theorem keyLt_trans {a b c : String} (h1 : keyLt a b) (h2 : keyLt b c) : keyLt a c :=
  lexLt_trans a.data b.data c.data h1 h2

theorem keyLt_of_not_of_ne {a b : String} (h1 : ¬ keyLt a b) (h2 : a ≠ b) : keyLt b a := by
  unfold keyLt at h1 ⊢
  cases hb : lexLt b.data a.data with
  | true => rfl
  | false =>
    exfalso
    have h1f : lexLt a.data b.data = false := by
      cases h : lexLt a.data b.data
      · rfl
      · exact absurd h h1
    have hdata := lexLt_connex a.data b.data h1f hb
    have heq : a = b := by
      cases a; cases b; exact congrArg String.mk hdata
    exact h2 heq

theorem keyLt_ne {a b : String} (h : keyLt a b) : a ≠ b := by
  intro he
  subst he
  exact keyLt_irrefl a h

/-! ### Entry-list lemmas for the store operations -/

theorem lookup_insertEntries_self :
    ∀ (l : List (String × Message)) (k : String) (v : Message),
      lookupEntries (insertEntries l k v) k = some v := by
  intro l k v
  induction l with
  | nil => simp [insertEntries, lookupEntries]
  | cons e t ih =>
    obtain ⟨k₀, v₀⟩ := e
    by_cases hlt : keyLt k k₀
    · simp [insertEntries, hlt, lookupEntries]
    · by_cases he : k = k₀
      · subst he
        simp [insertEntries, hlt, lookupEntries]
      · simp [insertEntries, hlt, he, lookupEntries, ih]

theorem lookup_insertEntries_ne :
    ∀ (l : List (String × Message)) (k : String) (v : Message) (j : String),
      j ≠ k → lookupEntries (insertEntries l k v) j = lookupEntries l j := by
  intro l k v j hne
  induction l with
  | nil => simp [insertEntries, lookupEntries, hne]
  | cons e t ih =>
    obtain ⟨k₀, v₀⟩ := e
    by_cases hlt : keyLt k k₀
    · simp [insertEntries, hlt, lookupEntries, hne]
    · by_cases he : k = k₀
      · subst he
        simp [insertEntries, hlt, lookupEntries, hne]
      · simp [insertEntries, hlt, he, lookupEntries, ih]

theorem lookup_none_iff_not_mem :
    ∀ (l : List (String × Message)) (k : String),
      lookupEntries l k = none ↔ k ∉ l.map Prod.fst := by
  intro l k
  induction l with
  | nil => simp [lookupEntries]
  | cons e t ih =>
    obtain ⟨k₀, v₀⟩ := e
    by_cases he : k = k₀
    · subst he
      simp [lookupEntries]
    · simp [lookupEntries, he, ih]

theorem removeEntries_of_lookup_none :
    ∀ (l : List (String × Message)) (k : String),
      lookupEntries l k = none → removeEntries l k = l := by
  intro l k
  induction l with
  | nil => intro _; rfl
  | cons e t ih =>
    obtain ⟨k₀, v₀⟩ := e
    intro h
    by_cases he : k = k₀
    · subst he
      simp [lookupEntries] at h
    · simp [lookupEntries, he] at h
      simp [removeEntries, he, ih h]

theorem removeEntries_sublist :
    ∀ (l : List (String × Message)) (k : String), (removeEntries l k).Sublist l := by
  intro l k
  induction l with
  | nil => simp [removeEntries]
  | cons e t ih =>
    obtain ⟨k₀, v₀⟩ := e
    by_cases he : k = k₀
    · simp [removeEntries, he]
    · simp only [removeEntries, he, if_false]
      exact ih.cons₂ (k₀, v₀)

theorem lookup_removeEntries_self :
    ∀ (l : List (String × Message)) (k : String),
      l.Pairwise (fun a b => keyLt a.1 b.1) →
      lookupEntries (removeEntries l k) k = none := by
  intro l k
  induction l with
  | nil => intro _; rfl
  | cons e t ih =>
    obtain ⟨k₀, v₀⟩ := e
    intro hp
    rw [List.pairwise_cons] at hp
    by_cases he : k = k₀
    · subst he
      simp only [removeEntries, if_pos rfl]
      rw [lookup_none_iff_not_mem]
      intro hmem
      rw [List.mem_map] at hmem
      obtain ⟨e, hel, hek⟩ := hmem
      exact keyLt_ne (hp.1 e hel) hek.symm
    · simp [removeEntries, he, lookupEntries, ih hp.2]

theorem mem_keys_insertEntries :
    ∀ (l : List (String × Message)) (k : String) (v : Message) (x : String),
      x ∈ (insertEntries l k v).map Prod.fst → x = k ∨ x ∈ l.map Prod.fst := by
  intro l k v x
  induction l with
  | nil => simp [insertEntries]
  | cons e t ih =>
    obtain ⟨k₀, v₀⟩ := e
    by_cases hlt : keyLt k k₀
    · simp [insertEntries, hlt]
    · by_cases he : k = k₀
      · subst he
        intro h
        simp [insertEntries, hlt] at h ⊢
        tauto
      · simp only [insertEntries, if_neg hlt, if_neg he, List.map_cons, List.mem_cons]
        intro h
        rcases h with h | h
        · tauto
        · rcases ih h with h | h <;> tauto

theorem pairwise_insertEntries :
    ∀ (l : List (String × Message)) (k : String) (v : Message),
      l.Pairwise (fun a b => keyLt a.1 b.1) →
      (insertEntries l k v).Pairwise (fun a b => keyLt a.1 b.1) := by
  intro l k v
  induction l with
  | nil => simp [insertEntries]
  | cons e t ih =>
    obtain ⟨k₀, v₀⟩ := e
    intro hp
    rw [List.pairwise_cons] at hp
    by_cases hlt : keyLt k k₀
    · rw [insertEntries, if_pos hlt, List.pairwise_cons]
      constructor
      · intro e he
        rw [List.mem_cons] at he
        rcases he with he | he
        · subst he; exact hlt
        · exact keyLt_trans hlt (hp.1 e he)
      · rw [List.pairwise_cons]
        exact hp
    · by_cases he : k = k₀
      · subst he
        rw [insertEntries, if_neg hlt, if_pos rfl, List.pairwise_cons]
        exact hp
      · rw [insertEntries, if_neg hlt, if_neg he, List.pairwise_cons]
        constructor
        · intro x hx
          rcases mem_keys_insertEntries t k v x.1 (List.mem_map_of_mem Prod.fst hx) with h | h
          · rw [h]
            exact keyLt_of_not_of_ne hlt he
          · rw [List.mem_map] at h
            obtain ⟨y, hyl, hyx⟩ := h
            have := hp.1 y hyl
            rw [hyx] at this
            exact this
        · exact ih hp.2

theorem keys_insertEntries_of_mem :
    ∀ (l : List (String × Message)) (k : String) (v : Message),
      l.Pairwise (fun a b => keyLt a.1 b.1) →
      k ∈ l.map Prod.fst →
      (insertEntries l k v).map Prod.fst = l.map Prod.fst := by
  intro l k v
  induction l with
  | nil => simp
  | cons e t ih =>
    obtain ⟨k₀, v₀⟩ := e
    intro hp hmem
    rw [List.pairwise_cons] at hp
    rw [List.map_cons, List.mem_cons] at hmem
    by_cases hlt : keyLt k k₀
    · exfalso
      rcases hmem with he | hmem
      · exact keyLt_ne hlt he
      · rw [List.mem_map] at hmem
        obtain ⟨y, hyl, hyk⟩ := hmem
        have h2 := hp.1 y hyl
        rw [hyk] at h2
        exact keyLt_irrefl k (keyLt_trans hlt h2)
    · by_cases he : k = k₀
      · subst he
        simp [insertEntries, hlt]
      · have hmem2 : k ∈ t.map Prod.fst := by
          rcases hmem with h | h
          · exact absurd h he
          · exact h
        simp [insertEntries, hlt, he, ih hp.2 hmem2]

theorem lookup_some_mem {l : List (String × Message)} {k : String} {v : Message}
    (h : lookupEntries l k = some v) : k ∈ l.map Prod.fst := by
  by_contra hmem
  rw [← lookup_none_iff_not_mem] at hmem
  rw [hmem] at h
  exact Option.noConfusion h

/-! ### Substring correctness -/

theorem listStarts_iff (p : List Char) :
    ∀ l, listStarts l p = true ↔ ∃ r, l = p ++ r := by
  induction p with
  | nil =>
    intro l
    simp [listStarts]
  | cons b bs ih =>
    intro l
    cases l with
    | nil => simp [listStarts]
    | cons a as =>
      rw [listStarts]
      simp only [Bool.and_eq_true, beq_iff_eq, ih as, List.cons_append, List.cons.injEq]
      constructor
      · rintro ⟨hab, r, hr⟩
        exact ⟨r, hab, hr⟩
      · rintro ⟨r, hab, hr⟩
        exact ⟨hab, r, hr⟩

theorem listHas_iff (hay pat : List Char) :
    listHas hay pat = true ↔ ContainsSub pat hay := by
  induction hay with
  | nil =>
    rw [listHas, listStarts_iff]
    unfold ContainsSub
    constructor
    · rintro ⟨r, hr⟩
      exact ⟨[], r, by simpa using hr⟩
    · rintro ⟨pre, post, h⟩
      have h' : pre = [] ∧ pat = [] ∧ post = [] := by simpa using h
      exact ⟨[], by simp [h'.2.1]⟩
  | cons c t ih =>
    rw [listHas]
    simp only [Bool.or_eq_true, listStarts_iff, ih]
    unfold ContainsSub
    constructor
    · rintro (⟨r, hr⟩ | ⟨pre, post, h⟩)
      · exact ⟨[], r, by simpa using hr⟩
      · exact ⟨c :: pre, post, by simp [h]⟩
    · rintro ⟨pre, post, h⟩
      cases pre with
      | nil =>
        left
        exact ⟨post, by simpa using h⟩
      | cons c₀ pre₀ =>
        right
        simp only [List.cons_append, List.cons.injEq] at h
        exact ⟨pre₀, post, h.2⟩

theorem strHas_iff (hay pat : String) :
    strHas hay pat = true ↔ ContainsSub pat.data hay.data :=
  listHas_iff hay.data pat.data

theorem lowerS_empty_iff (s : String) : lowerS s = "" ↔ s = "" := by
  cases s with
  | mk d =>
    cases d with
    | nil => simp [lowerS]
    | cons c t =>
      constructor
      · intro h
        exact absurd (congrArg String.data h) (by simp [lowerS])
      · intro h
        exact absurd (congrArg String.data h) (by simp)

/-! ### Reachable stores and their well-formedness -/

/-- A store state produced by some sequence of handler calls starting from the
empty store. -/
inductive Reachable : Store → Prop where
  | empty : Reachable Store.empty
  | create (st : Store) (fresh : String) (now : Nat) (b : CreateBody) :
      Reachable st → Reachable (postMessages st fresh now b).1
  | update (st : Store) (now : Nat) (mid : String) (p : MsgPatch) :
      Reachable st → Reachable (putMessageById st now mid p).1
  | delete (st : Store) (mid : String) :
      Reachable st → Reachable (deleteMessageById st mid).1

theorem Reachable.wf {st : Store} (h : Reachable st) : st.WF := by
  induction h with
  | empty => simp [Store.WF, Store.empty]
  | create st fresh now b _ ih =>
    exact pairwise_insertEntries _ _ _ ih
  | update st now mid p _ ih =>
    rw [putMessageById]
    cases hg : st.getOpt mid with
    | Some m => exact pairwise_insertEntries _ _ _ ih
    | None => exact ih
  | delete st mid _ ih =>
    rw [deleteMessageById, Store.removeOpt]
    cases hg : (st.remove mid).1 <;>
      exact ih.sublist (removeEntries_sublist _ _)

/-! ### Claim theorems -/

/-- C1: evaluation at the failing input. The create handler spreads the
request body after the server-assigned defaults, so a body carrying `id`,
`createdAt` or `updatedAt` overrides them: with fresh uuid "fresh-uuid-1" and
current time 5, the created record keeps the caller's forged `id` "forged-id",
`createdAt` 999 and `updatedAt` 777 instead of the fresh id, the current time
and absence. -/
theorem C1_create_trusts_caller_fields :
    (postMessages Store.empty "fresh-uuid-1" 5
        { title := "t", body := "b", attachmentURL := "a",
          id := some "forged-id", createdAt := some 999, updatedAt := some 777 }).2
      = Resp.msg { id := "forged-id", title := "t", body := "b", attachmentURL := "a",
                   createdAt := 999, updatedAt := some 777 }
    ∧ ("forged-id" : String) ≠ "fresh-uuid-1"
    ∧ (999 : Nat) ≠ 5
    ∧ (some 777 : Option Nat) ≠ none := by
  decide

/-- C2: evaluation at the failing input. The update handler spreads the
payload over the stored record, so a payload carrying `id` or `createdAt`
replaces those fields in the stored record: updating "m1" (createdAt 10) with
payload id "evil" and createdAt 99 at time 20 stores a record whose id is
"evil" and whose createdAt is 99. -/
theorem C2_update_payload_overwrites_server_fields :
    ((putMessageById
        ⟨[("m1", { id := "m1", title := "T", body := "B", attachmentURL := "A",
                   createdAt := 10, updatedAt := none })]⟩
        20 "m1" { id := some "evil", createdAt := some 99 }).1).get "m1"
      = some { id := "evil", title := "T", body := "B", attachmentURL := "A",
               createdAt := 99, updatedAt := some 20 }
    ∧ ("evil" : String) ≠ "m1"
    ∧ (99 : Nat) ≠ 10 := by
  decide

/-- C10: the create handler returns exactly the record it stores: the
response carries the built message, the new store is the insertion of that
message under its own `id` field, and looking that id up retrieves it. -/
theorem C10_create_returns_what_it_stores
    (st : Store) (fresh : String) (now : Nat) (b : CreateBody) :
    (postMessages st fresh now b).2 = Resp.msg (createMessage fresh now b)
    ∧ (postMessages st fresh now b).1
        = (st.insert (createMessage fresh now b).id (createMessage fresh now b)).2
    ∧ ((postMessages st fresh now b).1).get (createMessage fresh now b).id
        = some (createMessage fresh now b) := by
  refine ⟨rfl, rfl, ?_⟩
  exact lookup_insertEntries_self st.entries _ _

/-- C8: the read operations — list, get by id (found or not), and search
(valid, empty or absent query) — return the store unchanged. -/
theorem C8_reads_leave_store_unchanged (st : Store) (mid : String) (q : Option String) :
    (getMessages st).1 = st
    ∧ (getMessageById st mid).1 = st
    ∧ (searchMessages st q).1 = st := by
  refine ⟨rfl, rfl, ?_⟩
  cases q with
  | none => rfl
  | some s => by_cases h : lowerS s = "" <;> simp [searchMessages, h]

/-- C6: insert/get round trip on the record store: after inserting `v` under
`k`, `get k` returns `v`, and the insertion reports the prior value under `k`
(absent or present) without error. -/
theorem C6_insert_get_roundtrip (st : Store) (k : String) (v : Message) :
    ((st.insert k v).2).get k = some v
    ∧ (st.insert k v).1 = st.get k :=
  ⟨lookup_insertEntries_self st.entries k v, rfl⟩

/-- C5: evaluation at the failing inputs. The absence checks of the get, put
and delete handlers test the always-truthy `{Some}/{None}` sentinel, so
their 404/400 branches are dead. On the missing id "x": GET responds 200
with the None sentinel and leaves the store unchanged; PUT reads `.Some` of
the None sentinel, so `message!.id` throws a TypeError before any write;
DELETE responds 200 with the None sentinel. And after a successful delete of
"a", a second delete of "a" also responds 200 with the None sentinel —
nothing ever signals NotFound. -/
theorem C5_missing_id_dead_branches :
    getMessageById Store.empty "x" = (Store.empty, Resp.jsonOpt AzleOpt.None)
    ∧ putMessageById Store.empty 1 "x" {} = (Store.empty, Resp.fault)
    ∧ deleteMessageById Store.empty "x" = (Store.empty, Resp.jsonOpt AzleOpt.None)
    ∧ (deleteMessageById
        ⟨[("a", { id := "a", title := "T", body := "B", attachmentURL := "U",
                  createdAt := 3, updatedAt := none })]⟩ "a").2
      = Resp.jsonOpt (AzleOpt.Some
          { id := "a", title := "T", body := "B", attachmentURL := "U",
            createdAt := 3, updatedAt := none })
    ∧ (deleteMessageById
        (deleteMessageById
          ⟨[("a", { id := "a", title := "T", body := "B", attachmentURL := "U",
                    createdAt := 3, updatedAt := none })]⟩ "a").1 "a")
      = (Store.empty, Resp.jsonOpt AzleOpt.None) := by
  decide

/-- C4: for a non-empty query, search responds with exactly the stored
records whose lowercased title or body contains the lowercased query as a
substring, as a sublist of the store's value sequence (hence in store order);
for an empty or absent query it responds 400 with no records. -/
theorem C4_search_filters_by_substring (st : Store) (q : String) (hq : q ≠ "") :
    (searchMessages st (some q)).2
        = Resp.msgs (st.values.filter (matchesQuery (lowerS q)))
    ∧ (st.values.filter (matchesQuery (lowerS q))).Sublist st.values
    ∧ (∀ m, m ∈ st.values.filter (matchesQuery (lowerS q)) ↔
          m ∈ st.values ∧
            (ContainsSub (lowerS q).data (lowerS m.title).data
              ∨ ContainsSub (lowerS q).data (lowerS m.body).data))
    ∧ searchMessages st none = (st, Resp.err 400)
    ∧ searchMessages st (some "") = (st, Resp.err 400) := by
  have hq2 : lowerS q ≠ "" := fun hgoal => hq ((lowerS_empty_iff q).mp hgoal)
  refine ⟨by simp [searchMessages, hq2], List.filter_sublist _, ?_, rfl, ?_⟩
  · intro m
    rw [List.mem_filter]
    simp [matchesQuery, strHas_iff]
  · simp [searchMessages, lowerS]

/-- C4 witness: a concrete store of two records and the query "noon", whose
lowercased form matches the body of exactly the first record. -/
theorem C4_search_filters_by_substring_witness :
    ("noon" : String) ≠ ""
    ∧ (searchMessages
          ⟨[("a", { id := "a", title := "Board update", body := "Meeting at NOON",
                    attachmentURL := "", createdAt := 1, updatedAt := none }),
            ("b", { id := "b", title := "Other", body := "nothing here",
                    attachmentURL := "", createdAt := 2, updatedAt := none })]⟩
          (some "noon")).2
        = Resp.msgs
            ((⟨[("a", { id := "a", title := "Board update", body := "Meeting at NOON",
                        attachmentURL := "", createdAt := 1, updatedAt := none }),
                ("b", { id := "b", title := "Other", body := "nothing here",
                        attachmentURL := "", createdAt := 2, updatedAt := none })]⟩ : Store).values.filter
              (matchesQuery (lowerS "noon"))) :=
  ⟨by decide, (C4_search_filters_by_substring _ "noon" (by decide)).1⟩

/-- C3 (amended): for an existing id whose stored record carries that id in
its `id` field, update merges the payload over the stored record (fields
absent from the payload keep their stored values), unconditionally sets
`updatedAt` to the current time whatever `updatedAt` the payload carries,
writes the merged record back under that id, and returns the merged record;
and the new `updatedAt` is ≥ the stored `createdAt` and ≥ any prior stored
`updatedAt` whenever those stored timestamps do not exceed the current
time. -/
theorem C3_update_merges_and_stamps (st : Store) (now : Nat) (mid : String)
    (p : MsgPatch) (m : Message) (hget : st.get mid = some m) (hid : m.id = mid)
    (hc : m.createdAt ≤ now) (hu : ∀ u, m.updatedAt = some u → u ≤ now) :
    (putMessageById st now mid p).1 = (st.insert mid (updateMessage now m p)).2
    ∧ (putMessageById st now mid p).2 = Resp.msg (updateMessage now m p)
    ∧ (p.title = none → (updateMessage now m p).title = m.title)
    ∧ (p.body = none → (updateMessage now m p).body = m.body)
    ∧ (p.attachmentURL = none →
        (updateMessage now m p).attachmentURL = m.attachmentURL)
    ∧ (updateMessage now m p).updatedAt = some now
    ∧ (∀ u, (updateMessage now m p).updatedAt = some u →
        m.createdAt ≤ u ∧ ∀ u₀, m.updatedAt = some u₀ → u₀ ≤ u) := by
  subst hid
  have hopt : st.getOpt m.id = AzleOpt.Some m := by rw [Store.getOpt, hget]
  refine ⟨?_, ?_, ?_, ?_, ?_, rfl, ?_⟩
  · rw [putMessageById, hopt]
  · rw [putMessageById, hopt]
  · intro hnone
    simp [updateMessage, hnone]
  · intro hnone
    simp [updateMessage, hnone]
  · intro hnone
    simp [updateMessage, hnone]
  · intro u hu2
    rw [updateMessage] at hu2
    simp only [Option.some.injEq] at hu2
    subst hu2
    exact ⟨hc, hu⟩

/-- C3 witness: updating record "a" (createdAt 3, no prior update) with a
body-only payload at time 7 satisfies every hypothesis and the conclusion
follows by the theorem. -/
theorem C3_update_merges_and_stamps_witness :
    ((⟨[("a", { id := "a", title := "T", body := "B", attachmentURL := "U",
                createdAt := 3, updatedAt := none })]⟩ : Store).get "a"
      = some { id := "a", title := "T", body := "B", attachmentURL := "U",
               createdAt := 3, updatedAt := none })
    ∧ (3 : Nat) ≤ 7
    ∧ (putMessageById
        ⟨[("a", { id := "a", title := "T", body := "B", attachmentURL := "U",
                  createdAt := 3, updatedAt := none })]⟩ 7 "a"
        { body := some "x" }).2
      = Resp.msg (updateMessage 7
          { id := "a", title := "T", body := "B", attachmentURL := "U",
            createdAt := 3, updatedAt := none } { body := some "x" }) :=
  ⟨by decide, by decide,
    (C3_update_merges_and_stamps _ 7 "a" { body := some "x" } _
      (by decide) rfl (by decide) (by simp)).2.1⟩

/-- C3 counterexample: the claim as stated fails on the code in two places.
First, `createdAt` can be forged at creation (create at time 50 with body
createdAt 100), and the next update at time 60 yields `updatedAt` 60 < 100 =
`createdAt`. Second, when the stored record's `id` field ("j") differs from
its key ("k"), the merged record is written under "j", not under the request
id "k". -/
theorem C3_counterexample :
    ((putMessageById
        (postMessages Store.empty "u1" 50
          { title := "t", body := "b", attachmentURL := "a",
            createdAt := some 100 }).1
        60 "u1" {}).2
      = Resp.msg { id := "u1", title := "t", body := "b", attachmentURL := "a",
                   createdAt := 100, updatedAt := some 60 })
    ∧ (60 : Nat) < 100
    ∧ ((putMessageById
          ⟨[("k", { id := "j", title := "T", body := "B", attachmentURL := "A",
                    createdAt := 1, updatedAt := none })]⟩ 9 "k" {}).1).get "j"
        = some { id := "j", title := "T", body := "B", attachmentURL := "A",
                 createdAt := 1, updatedAt := some 9 }
    ∧ ((⟨[("k", { id := "j", title := "T", body := "B", attachmentURL := "A",
                  createdAt := 1, updatedAt := none })]⟩ : Store).get "j"
        = none) := by
  decide

/-- C9 (amended): update writes the merged record back under the looked-up
record's `id` field; whenever the looked-up record's `id` equals its key —
the invariant creation establishes — the store's key set is unchanged, even
when the payload carries a different id, which lands only in the stored
record's `id` field. A record whose `id` field already differs from its key
makes a later update insert under that foreign id (see the
counterexample). -/
theorem C9_update_preserves_keys (st : Store) (now : Nat) (mid : String)
    (p : MsgPatch) (m : Message) (hwf : st.WF) (hget : st.get mid = some m)
    (hid : m.id = mid) :
    ((putMessageById st now mid p).1).keys = st.keys := by
  subst hid
  have hopt : st.getOpt m.id = AzleOpt.Some m := by rw [Store.getOpt, hget]
  rw [putMessageById, hopt]
  exact keys_insertEntries_of_mem st.entries m.id _ hwf (lookup_some_mem hget)

/-- C9 witness: updating record "a" with a payload that carries the different
id "z" leaves the key list ["a"] unchanged. -/
theorem C9_update_preserves_keys_witness :
    (⟨[("a", { id := "a", title := "T", body := "B", attachmentURL := "U",
               createdAt := 3, updatedAt := none })]⟩ : Store).WF
    ∧ ((putMessageById
          ⟨[("a", { id := "a", title := "T", body := "B", attachmentURL := "U",
                    createdAt := 3, updatedAt := none })]⟩ 7 "a"
          { id := some "z" }).1).keys
        = (⟨[("a", { id := "a", title := "T", body := "B", attachmentURL := "U",
                     createdAt := 3, updatedAt := none })]⟩ : Store).keys :=
  ⟨by rw [Store.WF]; simp,
    C9_update_preserves_keys _ 7 "a" { id := some "z" }
      { id := "a", title := "T", body := "B", attachmentURL := "U",
        createdAt := 3, updatedAt := none }
      (by rw [Store.WF]; simp) (by decide) rfl⟩

/-- C9 counterexample: starting from the empty store, create yields key "k";
an update whose payload carries id "j" keeps the key set at ["k"] but stores
a record whose `id` field is "j"; the NEXT update of "k" then inserts the
merged record under "j", growing the key set to ["j", "k"]. -/
theorem C9_counterexample :
    ((postMessages Store.empty "k" 1
        { title := "T", body := "B", attachmentURL := "A" }).1).keys = ["k"]
    ∧ ((putMessageById
          (postMessages Store.empty "k" 1
            { title := "T", body := "B", attachmentURL := "A" }).1
          2 "k" { id := some "j" }).1).keys = ["k"]
    ∧ ((putMessageById
          (putMessageById
            (postMessages Store.empty "k" 1
              { title := "T", body := "B", attachmentURL := "A" }).1
            2 "k" { id := some "j" }).1
          3 "k" {}).1).keys = ["j", "k"]
    ∧ (["j", "k"] : List String) ≠ ["k"] := by
  decide

/-- C7: on any store reachable by the handlers from the empty store, the
entry keys are strictly ascending in the key order, the list operation
responds with the store's value sequence in that order, and a second list
call on the store returned by the first gives the identical result. -/
theorem C7_list_ordered_and_stable (st : Store) (h : Reachable st) :
    List.Pairwise keyLt st.keys
    ∧ (getMessages st).2 = Resp.msgs st.values
    ∧ getMessages ((getMessages st).1) = getMessages st := by
  refine ⟨?_, rfl, rfl⟩
  have hwf := h.wf
  rw [Store.WF] at hwf
  rw [Store.keys, List.pairwise_map]
  exact hwf

/-- C7 witness: the store built by two creates ("b" at time 1, then "a" at
time 2) is reachable, and its keys come out in ascending order. -/
theorem C7_list_ordered_and_stable_witness :
    Reachable ((postMessages
        (postMessages Store.empty "b" 1
          { title := "t1", body := "b1", attachmentURL := "" }).1
        "a" 2 { title := "t2", body := "b2", attachmentURL := "" }).1)
    ∧ List.Pairwise keyLt ((postMessages
        (postMessages Store.empty "b" 1
          { title := "t1", body := "b1", attachmentURL := "" }).1
        "a" 2 { title := "t2", body := "b2", attachmentURL := "" }).1).keys :=
  have hr : Reachable ((postMessages
      (postMessages Store.empty "b" 1
        { title := "t1", body := "b1", attachmentURL := "" }).1
      "a" 2 { title := "t2", body := "b2", attachmentURL := "" }).1) :=
    Reachable.create _ "a" 2 _ (Reachable.create _ "b" 1 _ Reachable.empty)
  ⟨hr, (C7_list_ordered_and_stable _ hr).1⟩
